import Mathlib

/-!
Verification of the Intell-Weave personalized recommendation engine
(backend/app/services/recommender.py, class AdvancedRecommender).

Shallow embedding conventions:
* Python floats are modelled as exact rationals.
* Timestamps are rationals measured in seconds; an age in hours is
  (now - published_at) / 3600, as in the source.
* A database query that may raise is modelled as an Option: none is the
  exception path (caught by the function's own try/except), some r is a
  successful result r.
* A SQLAlchemy result cursor is modelled by Cursor: iterating it consumes
  the pending rows, so a second consumption sees an exhausted cursor.
* Python dicts with numeric values are association lists with unique keys
  (defaultdict accumulation is modelled by bumpBy); reading a key absent
  from a dict through dict.get(k, default) is modelled by a total lookup
  with that default, so a returned dict that simply lacks a key is
  modelled by the field holding the default the readers would observe.
-/

/-- Model of a SQLAlchemy result cursor: a list of pending rows.
Iteration consumes the rows. -/
structure Cursor (α : Type) where
  pending : List α
deriving DecidableEq

/-- Model of a Python for-loop over a cursor: folds over the pending rows
and returns the accumulator together with the exhausted cursor. -/
def Cursor.foldConsume {α β : Type} (c : Cursor α) (init : β) (f : β → α → β) :
    β × Cursor α :=
  (c.pending.foldl f init, ⟨[]⟩)

/-- Model of list(result): drains the pending rows, leaving the cursor
exhausted. -/
def Cursor.listConsume {α : Type} (c : Cursor α) : List α × Cursor α :=
  (c.pending, ⟨[]⟩)

/-- Accumulate weight w onto key k in a dict modelled as an association
list: add to the entry if the key is present, append a fresh entry
otherwise (defaultdict semantics). -/
def bumpBy {κ ν : Type} [BEq κ] [Add ν] (d : List (κ × ν)) (k : κ) (w : ν) :
    List (κ × ν) :=
  if d.any (fun p => p.1 == k) then
    d.map (fun p => if p.1 == k then (p.1, p.2 + w) else p)
  else d ++ [(k, w)]

/-- Total dict lookup with a default, modelling d.get(k, default). -/
def dictGetD {ν : Type} (d : List (String × ν)) (k : String) (default : ν) : ν :=
  match d.find? (fun p => p.1 == k) with
  | some p => p.2
  | none => default

/-- Membership test on a dict, modelling the Python expression k in d. -/
def dictMem {ν : Type} (d : List (String × ν)) (k : String) : Bool :=
  d.any (fun p => p.1 == k)

/-- A row of the user-interaction query in _get_user_profile: the join of
user_events with articles and article_nlp. entity_texts are the text
fields of the dict-shaped entries of key_entities (non-dict entries are
skipped by the source). ts_hour is the hour of the event timestamp when
the timestamp is present. -/
structure EventRow where
  event_type : String
  topics : List String
  entity_texts : List String
  sentiment : Option String
  ts_hour : Option Nat
deriving DecidableEq

/-- Embedding of AdvancedRecommender._get_event_weight. -/
def get_event_weight (t : String) : ℚ :=
  if t = "click" then 1
  else if t = "read" then 2
  else if t = "bookmark" then 3
  else if t = "share" then 4
  else if t = "like" then 5/2
  else if t = "comment" then 7/2
  else if t = "dwell_time" then 3/2
  else 1

/-- Embedding of the profile dict built by _get_user_profile. -/
structure UserProfile where
  user_id : String
  topic_preferences : List (String × ℚ)
  entity_interests : List (String × ℚ)
  sentiment_preference : List (String × ℚ)
  active_hours : List (Nat × Nat)
  total_interactions : Nat
deriving DecidableEq

/-- Accumulator of the interaction-analysis loop in _get_user_profile. -/
structure ProfAcc where
  topics : List (String × ℚ)
  entities : List (String × ℚ)
  sentiments : List (String × ℚ)
  hours : List (Nat × Nat)

/-- One iteration of the interaction-analysis loop of _get_user_profile. -/
def profile_step (acc : ProfAcc) (row : EventRow) : ProfAcc :=
  let w := get_event_weight row.event_type
  let t := row.topics.foldl (fun d tp => bumpBy d tp w) acc.topics
  let e := row.entity_texts.foldl (fun d en => bumpBy d en w) acc.entities
  let s := match row.sentiment with
    | some sl => bumpBy acc.sentiments sl w
    | none => acc.sentiments
  let hr := match row.ts_hour with
    | some h => h
    | none => 12
  { topics := t, entities := e, sentiments := s, hours := bumpBy acc.hours hr 1 }

/-- Embedding of the successful branch of _get_user_profile: consume the
event cursor accumulating the maps, then take total_interactions as
len(list(result)) on the already-consumed cursor. -/
def build_profile (uid : String) (result : Cursor EventRow) : UserProfile :=
  let step := result.foldConsume ⟨[], [], [], []⟩ profile_step
  let acc := step.1
  let rest := step.2.listConsume.1
  { user_id := uid
    topic_preferences := acc.topics
    entity_interests := acc.entities
    sentiment_preference := acc.sentiments
    active_hours := acc.hours
    total_interactions := rest.length }

/-- Embedding of _get_user_profile on an uncached user id: q is the result
of the event query, none when the query raises. The except branch returns
a dict whose maps read as empty through dict.get. -/
def get_user_profile (uid : String) (q : Option (Cursor EventRow)) : UserProfile :=
  match q with
  | some result => build_profile uid result
  | none =>
    { user_id := uid
      topic_preferences := []
      entity_interests := []
      sentiment_preference := []
      active_hours := []
      total_interactions := 0 }

/-- A row of the articles-joined-with-article_nlp queries used by
_get_candidate_articles and _get_fallback_articles. Inert metadata
columns (title, subtitle, author, source_url, reading_time, summary,
embedding) are never read by the ranking logic and are omitted.
key_entities holds the text fields of the parsed entity dicts. -/
structure CandRow where
  id : String
  published_at : Option ℚ
  tags : Option (List String)
  topics : Option (List String)
  key_entities : Option (List String)
  sentiment : Option String
  credibility_score : Option ℚ
deriving DecidableEq

/-- A row of the user_events table, as used by the exclusion subquery of
_get_candidate_articles. -/
structure EventRec where
  user_id : String
  article_id : String
  event_type : String
deriving DecidableEq

/-- The database state seen by one request: the joined article rows and
the user_events rows. -/
structure DB where
  articles : List CandRow
  events : List EventRec
deriving DecidableEq

/-- A candidate dict as built by _get_candidate_articles. entities holds
the text fields of the json-loaded entity dicts. Inert metadata keys are
omitted (never read downstream). -/
structure Candidate where
  id : String
  published_at : Option ℚ
  tags : List String
  topics : List String
  entities : List String
  sentiment : Option String
  credibility_score : ℚ
deriving DecidableEq

/-- Mapping of a SQL row to the candidate dict in _get_candidate_articles.
The source computes float(row.credibility_score or 0.5), under which a
stored 0.0 is falsy and also defaults to 0.5. -/
def rowToCandidate (r : CandRow) : Candidate :=
  { id := r.id
    published_at := r.published_at
    tags := r.tags.getD []
    topics := r.topics.getD []
    entities := r.key_entities.getD []
    sentiment := r.sentiment
    credibility_score :=
      match r.credibility_score with
      | none => 1/2
      | some c => if c = 0 then 1/2 else c }

/-- True when the user has a read or bookmark event for the article:
the NOT IN exclusion subquery of _get_candidate_articles. -/
def consumedB (db : DB) (uid : String) (aid : String) : Bool :=
  db.events.any fun e =>
    e.user_id == uid && (e.event_type == "read" || e.event_type == "bookmark")
      && e.article_id == aid

/-- WHERE clause of the candidate query: published within the trailing
14 days (a NULL published_at fails the comparison) and not consumed. -/
def candidate_filter (db : DB) (now : ℚ) (uid : String) (r : CandRow) : Bool :=
  (match r.published_at with
   | some p => decide (now - 14 * 86400 < p)
   | none => false) && !(consumedB db uid r.id)

/-- ORDER BY a.published_at DESC of the candidate query (all selected rows
have a non-NULL published_at because of the WHERE clause). -/
def pub_order (a b : CandRow) : Prop :=
  b.published_at.getD 0 ≤ a.published_at.getD 0

instance : DecidableRel pub_order := fun _ _ =>
  inferInstanceAs (Decidable (_ ≤ _))

/-- The candidate SQL query: filter, order by publication time descending,
limit. -/
def candidate_query (db : DB) (now : ℚ) (uid : String) (lim : ℕ) : List CandRow :=
  (List.insertionSort pub_order (db.articles.filter (candidate_filter db now uid))).take lim

/-- Embedding of _get_candidate_articles: dbq is none when the query
raises, in which case the except branch returns []. -/
def get_candidate_articles (dbq : Option DB) (now : ℚ) (uid : String)
    (lim : ℕ) : List Candidate :=
  match dbq with
  | none => []
  | some db => (candidate_query db now uid lim).map rowToCandidate

/-- Environment of one get_personalized_feed call: the clock and the
results of each external query (none models that query raising).
engagement gives, per article id, the 24-hour event count of the
popularity query. -/
structure Env where
  now : ℚ
  profile_events : Option (Cursor EventRow)
  candidate_db : Option DB
  fallback_db : Option DB
  engagement : String → Option Nat

/-- Embedding of _content_based_score: accumulate matched topic weights
scaled by 0.1 and matched entity weights scaled by 0.05, then clamp
above at 1.0. -/
def content_based_score (profile : UserProfile) (article : Candidate) : ℚ :=
  let s1 := article.topics.foldl
    (fun s t =>
      if dictMem profile.topic_preferences t then
        s + dictGetD profile.topic_preferences t 0 * (1/10)
      else s) 0
  let s2 := article.entities.foldl
    (fun s e =>
      if dictMem profile.entity_interests e then
        s + dictGetD profile.entity_interests e 0 * (1/20)
      else s) s1
  min 1 s2

/-- Embedding of _popularity_score: 24-hour engagement count divided by 50,
clamped at 1; 0.5 when the count query raises. -/
def popularity_score (env : Env) (article : Candidate) : ℚ :=
  match env.engagement article.id with
  | none => 1/2
  | some c => min 1 ((c : ℚ) / 50)

/-- Embedding of _freshness_score: step function of the age in hours since
publication; 0.5 when the publication date is missing. -/
def freshness_score (now : ℚ) (article : Candidate) : ℚ :=
  match article.published_at with
  | none => 1/2
  | some pub =>
    let hours_old := (now - pub) / 3600
    if hours_old ≤ 1 then 1
    else if hours_old ≤ 6 then 9/10
    else if hours_old ≤ 24 then 7/10
    else if hours_old ≤ 72 then 1/2
    else 3/10

/-- Embedding of _calculate_hybrid_score: weighted blend of the four
sub-scores, clamped to the unit interval. -/
def calculate_hybrid_score (env : Env) (profile : UserProfile)
    (article : Candidate) : ℚ :=
  let content := content_based_score profile article
  let pop := popularity_score env article
  let fresh := freshness_score env.now article
  let cred := article.credibility_score
  min 1 (max 0 (content * (2/5) + pop * (1/5) + fresh * (1/5) + cred * (1/5)))

/-- A candidate dict after the pipeline attached recommendation_score. -/
structure Scored where
  article : Candidate
  recommendation_score : ℚ
deriving DecidableEq

/-- Embedding of _calculate_article_similarity: topic-set Jaccard
similarity, 0 when either topic set is empty. -/
def calculate_article_similarity (a b : Scored) : ℚ :=
  let t1 := a.article.topics.toFinset
  let t2 := b.article.topics.toFinset
  if t1 = ∅ ∨ t2 = ∅ then 0
  else if t1 ∪ t2 = ∅ then 0
  else ((t1 ∩ t2).card : ℚ) / ((t1 ∪ t2).card : ℚ)

/-- Diversity penalty of the MMR loop: average similarity to the
already-selected articles. -/
def mmr_penalty (selected : List Scored) (a : Scored) : ℚ :=
  (selected.map fun s => calculate_article_similarity a s).sum
    / (selected.length : ℚ)

/-- The MMR objective of _apply_diversity_reranking. -/
def mmr_score (lam : ℚ) (selected : List Scored) (a : Scored) : ℚ :=
  (1 - lam) * a.recommendation_score - lam * mmr_penalty selected a

/-- One comparison of the inner argmax scan of the MMR loop: an article
replaces the incumbent only on a strict improvement of the MMR score. -/
def pick_step (lam : ℚ) (selected : List Scored)
    (acc : Option Scored × ℚ) (a : Scored) : Option Scored × ℚ :=
  if acc.2 < mmr_score lam selected a then (some a, mmr_score lam selected a)
  else acc

/-- Inner argmax scan of the MMR loop: best_mmr_score starts at -1 and an
article is retained only on a strict improvement. none models the Python
best_article staying None. -/
def pick_best (lam : ℚ) (selected remaining : List Scored) : Option Scored :=
  (remaining.foldl (pick_step lam selected)
    ((none : Option Scored), (-1 : ℚ))).1

/-- The while-loop of _apply_diversity_reranking, with explicit fuel; the
canonical call passes the length of remaining as fuel. A none result
models the Python loop never terminating (no article ever improves on the
initial -1 bound, so nothing is selected or removed). -/
def mmr_loop (lam : ℚ) (lim : ℕ) : ℕ → List Scored → List Scored → Option (List Scored)
  | 0, selected, remaining =>
    if selected.length < lim ∧ remaining ≠ [] then none else some selected
  | fuel+1, selected, remaining =>
    if selected.length < lim ∧ remaining ≠ [] then
      match pick_best lam selected remaining with
      | none => none
      | some b => mmr_loop lam lim fuel (selected ++ [b]) (remaining.erase b)
    else some selected

/-- Descending order on recommendation_score; the list sort of the source
is stable, as is List.insertionSort with this relation. -/
def score_ge (a b : Scored) : Prop :=
  b.recommendation_score ≤ a.recommendation_score

instance : DecidableRel score_ge := fun _ _ =>
  inferInstanceAs (Decidable (_ ≤ _))

instance : IsTotal Scored score_ge :=
  ⟨fun a b => le_total b.recommendation_score a.recommendation_score⟩

instance : IsTrans Scored score_ge :=
  ⟨fun _ _ _ hab hbc => le_trans hbc hab⟩

/-- Embedding of _apply_diversity_reranking: sort by score descending,
select the head unconditionally, then run the MMR loop. -/
def apply_diversity_reranking (articles : List Scored) (lam : ℚ)
    (lim : ℕ) : Option (List Scored) :=
  match List.insertionSort score_ge articles with
  | [] => some []
  | first :: rest => mmr_loop lam lim rest.length [first] rest

/-- WHERE clause of the fallback query: published within the trailing
7 days. -/
def fallback_filter (now : ℚ) (r : CandRow) : Bool :=
  match r.published_at with
  | some p => decide (now - 7 * 86400 < p)
  | none => false

/-- ORDER BY an.credibility_score DESC NULLS LAST, a.published_at DESC of
the fallback query. -/
def fallback_order (a b : CandRow) : Prop :=
  match a.credibility_score, b.credibility_score with
  | some x, some y => y < x ∨ (x = y ∧ b.published_at.getD 0 ≤ a.published_at.getD 0)
  | some _, none => True
  | none, some _ => False
  | none, none => b.published_at.getD 0 ≤ a.published_at.getD 0

instance : DecidableRel fallback_order := fun a b => by
  unfold fallback_order
  cases a.credibility_score <;> cases b.credibility_score <;> infer_instance

/-- Mapping of a fallback SQL row to the result dict of
_get_fallback_articles: the dict carries recommendation_score 0.6 and has
no topics or entities keys (read as empty downstream). -/
def row_to_fallback (r : CandRow) : Scored :=
  { article :=
    { id := r.id
      published_at := r.published_at
      tags := r.tags.getD []
      topics := []
      entities := []
      sentiment := r.sentiment
      credibility_score :=
        match r.credibility_score with
        | none => 1/2
        | some c => if c = 0 then 1/2 else c }
    recommendation_score := 3/5 }

/-- The fallback SQL query: filter to the 7-day window, order by
credibility then recency, limit. -/
def fallback_query (db : DB) (now : ℚ) (lim : ℕ) : List CandRow :=
  (List.insertionSort fallback_order (db.articles.filter (fallback_filter now))).take lim

/-- Embedding of _get_fallback_articles: dbq is none when the query
raises, in which case the except branch returns []. -/
def get_fallback_articles (dbq : Option DB) (now : ℚ) (lim : ℕ) : List Scored :=
  match dbq with
  | none => []
  | some db => (fallback_query db now lim).map row_to_fallback

/-- Embedding of get_personalized_feed: build the profile, fetch 3*limit
candidates, fall back when there are none, otherwise score and rerank.
A none result models divergence of the MMR loop. -/
def get_personalized_feed (env : Env) (uid : String) (lim : ℕ)
    (lam : ℚ) : Option (List Scored) :=
  let profile := get_user_profile uid env.profile_events
  let candidates := get_candidate_articles env.candidate_db env.now uid (lim * 3)
  if candidates = [] then
    some (get_fallback_articles env.fallback_db env.now lim)
  else
    let scored := candidates.map fun a =>
      { article := a, recommendation_score := calculate_hybrid_score env profile a }
    apply_diversity_reranking scored lam lim

/-- Concrete article published half an hour before the reference clock. -/
def sampleFreshA : Candidate :=
  { id := "a1", published_at := some (-1800), tags := [], topics := [],
    entities := [], sentiment := none, credibility_score := 1/2 }

/-- Concrete article published one hundred hours before the reference
clock. -/
def sampleFreshB : Candidate :=
  { id := "a2", published_at := some (-360000), tags := [], topics := [],
    entities := [], sentiment := none, credibility_score := 1/2 }

/-- Concrete profile with empty maps, as built for a cold-start user. -/
def emptyProfile : UserProfile :=
  { user_id := "u", topic_preferences := [], entity_interests := [],
    sentiment_preference := [], active_hours := [], total_interactions := 0 }

/-- Concrete article row for the fallback database. -/
def sampleRow : CandRow :=
  { id := "f1", published_at := some (-3600), tags := none, topics := none,
    key_entities := none, sentiment := none, credibility_score := some (9/10) }

/-- Concrete environment whose candidate query raises and whose fallback
database holds one recent article. -/
def sampleEnvFallback : Env :=
  { now := 0, profile_events := none, candidate_db := none,
    fallback_db := some { articles := [sampleRow], events := [] },
    engagement := fun _ => none }

/-- Concrete scored candidates for the diversity re-ranking claims. -/
def wScoredA : Scored :=
  ⟨{ id := "w1", published_at := none, tags := [], topics := ["ai"],
     entities := [], sentiment := none, credibility_score := 1 }, 0⟩

/-- Second concrete scored candidate, with a higher score. -/
def wScoredB : Scored :=
  ⟨{ id := "w2", published_at := none, tags := [], topics := ["sports"],
     entities := [], sentiment := none, credibility_score := 1 }, 1⟩

/-- Concrete scored candidate for the C4 counterexample. -/
def cexScored4 : Scored :=
  ⟨{ id := "x1", published_at := none, tags := [], topics := [],
     entities := [], sentiment := none, credibility_score := 1 }, 1⟩

/-- Concrete scored candidate for the C9 witness. -/
def wScored9 : Scored :=
  ⟨{ id := "w3", published_at := none, tags := [], topics := ["tech"],
     entities := [], sentiment := none, credibility_score := 1 }, 1⟩

/-- Concrete scored candidate for the C9 counterexample. -/
def cexScored9 : Scored :=
  ⟨{ id := "x2", published_at := none, tags := [], topics := [],
     entities := [], sentiment := none, credibility_score := 1 }, 1⟩

/-- Concrete article row for the C2 witness database. -/
def wRowC2 : CandRow :=
  { id := "g1", published_at := some (-3600), tags := none, topics := none,
    key_entities := none, sentiment := none, credibility_score := some 1 }

/-- Concrete environment for the C2 witness: the candidate query raises
and the fallback store holds one article. -/
def wEnvC2 : Env :=
  { now := 0, profile_events := none, candidate_db := none,
    fallback_db := some { articles := [wRowC2], events := [] },
    engagement := fun _ => none }

/-- Concrete recent article rows for the C3 witness. -/
def wRowC3 : CandRow :=
  { id := "h1", published_at := some (-60), tags := none, topics := none,
    key_entities := none, sentiment := none, credibility_score := some 1 }

/-- Second article row for the C3 witness, already read by the user. -/
def wRowC3b : CandRow :=
  { id := "h2", published_at := some (-120), tags := none, topics := none,
    key_entities := none, sentiment := none, credibility_score := some 1 }

/-- Concrete database for the C3 witness: two articles, one read event. -/
def wDbC3 : DB :=
  { articles := [wRowC3, wRowC3b],
    events := [{ user_id := "u", article_id := "h2", event_type := "read" }] }

/-- Concrete article rows for the C3 counterexample, all published within
the 14-day window. -/
def cexRowA : CandRow :=
  { id := "k1", published_at := some (-60), tags := none, topics := none,
    key_entities := none, sentiment := none, credibility_score := some 1 }

/-- Second counterexample row. -/
def cexRowB : CandRow :=
  { id := "k2", published_at := some (-120), tags := none, topics := none,
    key_entities := none, sentiment := none, credibility_score := some 1 }

/-- Third counterexample row. -/
def cexRowC : CandRow :=
  { id := "k3", published_at := some (-180), tags := none, topics := none,
    key_entities := none, sentiment := none, credibility_score := some 1 }

/-- Concrete database with three eligible articles and no events. -/
def cexDbC3 : DB := { articles := [cexRowA, cexRowB, cexRowC], events := [] }

/-- C8: if the interaction-event query raises, _get_user_profile returns a
profile whose topic, entity and sentiment maps are all empty, and the
failure is not propagated (the function still returns a profile). -/
theorem get_user_profile_failure_empty_maps (uid : String) :
    (get_user_profile uid none).topic_preferences = [] ∧
    (get_user_profile uid none).entity_interests = [] ∧
    (get_user_profile uid none).sentiment_preference = [] :=
  ⟨rfl, rfl, rfl⟩

/-- C10: whenever the event query succeeds, the profile built by
_get_user_profile has total_interactions = 0 regardless of how many rows
the query returned, because the cursor is exhausted by the accumulation
loop before len(list(result)) is taken. -/
theorem get_user_profile_total_interactions_zero (uid : String)
    (c : Cursor EventRow) :
    (get_user_profile uid (some c)).total_interactions = 0 :=
  rfl

/-- If a key is absent from a dict, the defaulted lookup returns the
default. -/
lemma dictGetD_not_mem {ν : Type} (d : List (String × ν)) (k : String) (v : ν)
    (h : dictMem d k = false) : dictGetD d k v = v := by
  unfold dictGetD
  cases hf : d.find? fun p => p.1 == k with
  | none => rfl
  | some p =>
    exfalso
    have hp := List.find?_some hf
    have hmem := List.mem_of_find?_eq_some hf
    have h2 : ¬ (d.any fun p => p.1 == k) = true := by
      simp only [dictMem] at h
      simp [h]
    exact h2 (List.any_eq_true.mpr ⟨p, hmem, hp⟩)

/-- The matched-weight accumulation loop of _content_based_score equals
the defaulted-lookup sum, since absent keys contribute zero. -/
lemma content_fold_sum (d : List (String × ℚ)) (w : ℚ) :
    ∀ (l : List String) (c : ℚ),
      l.foldl (fun s t => if dictMem d t then s + dictGetD d t 0 * w else s) c
        = c + (l.map fun t => dictGetD d t 0 * w).sum
  | [], c => by simp
  | t :: ts, c => by
    by_cases h : dictMem d t = true
    · simp only [List.foldl_cons, List.map_cons, List.sum_cons, h, if_pos]
      rw [content_fold_sum d w ts]
      ring
    · have hfalse : dictMem d t = false := by
        simpa using h
      simp only [List.foldl_cons, List.map_cons, List.sum_cons, hfalse,
        Bool.false_eq_true, if_false]
      rw [content_fold_sum d w ts, dictGetD_not_mem d t 0 hfalse]
      ring

/-- Sum of an everywhere-zero map. -/
lemma sum_map_zero {α : Type} (l : List α) : (l.map fun _ => (0 : ℚ)).sum = 0 := by
  induction l with
  | nil => simp
  | cons a t ih => simp [ih]

/-- C1: the hybrid score equals the weighted blend
0.4 content + 0.2 popularity + 0.2 freshness + 0.2 credibility clamped
to the unit interval, and therefore always lies in the unit interval. -/
theorem hybrid_score_formula_bounds (env : Env) (profile : UserProfile)
    (article : Candidate) :
    calculate_hybrid_score env profile article =
      min 1 (max 0 ((2/5) * content_based_score profile article
        + (1/5) * popularity_score env article
        + (1/5) * freshness_score env.now article
        + (1/5) * article.credibility_score)) ∧
    0 ≤ calculate_hybrid_score env profile article ∧
    calculate_hybrid_score env profile article ≤ 1 := by
  unfold calculate_hybrid_score
  refine ⟨?_, ?_, ?_⟩
  · ring_nf
  · exact le_min (by norm_num) (le_max_left _ _)
  · exact min_le_left _ _

/-- C6: the content sub-score is the topic-match sum scaled by 0.1 plus
the entity-match sum scaled by 0.05, clamped above at 1.0 (absent keys
contribute zero), and it is 0 for every candidate when the profile maps
are empty. -/
theorem content_score_formula (profile : UserProfile) (article : Candidate) :
    content_based_score profile article =
      min 1 ((article.topics.map fun t =>
          dictGetD profile.topic_preferences t 0 * (1/10)).sum
        + (article.entities.map fun e =>
          dictGetD profile.entity_interests e 0 * (1/20)).sum) ∧
    (profile.topic_preferences = [] → profile.entity_interests = [] →
      content_based_score profile article = 0) := by
  have h1 : content_based_score profile article =
      min 1 ((article.topics.map fun t =>
          dictGetD profile.topic_preferences t 0 * (1/10)).sum
        + (article.entities.map fun e =>
          dictGetD profile.entity_interests e 0 * (1/20)).sum) := by
    simp only [content_based_score]
    rw [content_fold_sum, content_fold_sum, zero_add]
  refine ⟨h1, fun ht he => ?_⟩
  rw [h1, ht, he]
  have hz : ∀ s : String, dictGetD ([] : List (String × ℚ)) s (0 : ℚ) = 0 := by
    intro s; rfl
  simp only [hz, zero_mul]
  rw [sum_map_zero, sum_map_zero]
  norm_num

/-- C7: the freshness sub-score is 0.5 for a missing publication date,
otherwise the stated step function of the age in hours, and it is
monotonically non-increasing in the article age. -/
theorem freshness_step_monotone :
    (∀ (now : ℚ) (a : Candidate), a.published_at = none →
      freshness_score now a = 1/2) ∧
    (∀ (now : ℚ) (a : Candidate) (pub : ℚ), a.published_at = some pub →
      freshness_score now a =
        (if (now - pub) / 3600 ≤ 1 then 1
         else if (now - pub) / 3600 ≤ 6 then 9/10
         else if (now - pub) / 3600 ≤ 24 then 7/10
         else if (now - pub) / 3600 ≤ 72 then 1/2
         else 3/10)) ∧
    (∀ (now : ℚ) (a b : Candidate) (pa pb : ℚ),
      a.published_at = some pa → b.published_at = some pb →
      now - pa ≤ now - pb →
      freshness_score now b ≤ freshness_score now a) := by
  refine ⟨?_, ?_, ?_⟩
  · intro now a h
    simp [freshness_score, h]
  · intro now a pub h
    simp [freshness_score, h]
  · intro now a b pa pb ha hb hage
    have hq : (now - pa) / 3600 ≤ (now - pb) / 3600 := by
      gcongr
    simp only [freshness_score, ha, hb]
    split_ifs <;> linarith

/-- Witness for C7: a half-hour-old article scores at least as high as a
hundred-hour-old one. -/
theorem freshness_step_monotone_witness :
    freshness_score 0 sampleFreshB ≤ freshness_score 0 sampleFreshA :=
  freshness_step_monotone.2.2 0 sampleFreshA sampleFreshB (-1800) (-360000)
    rfl rfl (by norm_num)

/-- Witness for C6: with empty profile maps the content term is 0 on a
concrete candidate that does have topics and entities. -/
theorem content_score_formula_witness :
    content_based_score emptyProfile
      { id := "a3", published_at := none, tags := [],
        topics := ["space", "policy"], entities := ["NASA"],
        sentiment := none, credibility_score := 1/2 } = 0 :=
  (content_score_formula emptyProfile _).2 rfl rfl

/-- C5: when the candidate retrieval yields no candidates the feed is
exactly the fallback output; every fallback entry carries
recommendation_score 0.6; and a failing fallback query yields the empty
list rather than an error. -/
theorem feed_fallback_on_empty :
    (∀ (env : Env) (uid : String) (lim : ℕ) (lam : ℚ),
      get_candidate_articles env.candidate_db env.now uid (lim * 3) = [] →
      get_personalized_feed env uid lim lam =
        some (get_fallback_articles env.fallback_db env.now lim)) ∧
    (∀ (dbq : Option DB) (now : ℚ) (lim : ℕ),
      ∀ s ∈ get_fallback_articles dbq now lim, s.recommendation_score = 3/5) ∧
    (∀ (now : ℚ) (lim : ℕ), get_fallback_articles none now lim = []) := by
  refine ⟨?_, ?_, ?_⟩
  · intro env uid lim lam h
    simp [get_personalized_feed, h]
  · intro dbq now lim s hs
    cases dbq with
    | none => simp [get_fallback_articles] at hs
    | some db =>
      simp only [get_fallback_articles, List.mem_map] at hs
      obtain ⟨r, _, hrs⟩ := hs
      rw [← hrs]
      rfl
  · intro now lim
    rfl

/-- Witness for C5: with the candidate query raising, the feed equals the
fallback output on a concrete environment. -/
theorem feed_fallback_on_empty_witness :
    get_personalized_feed sampleEnvFallback "u" 2 (3/10) =
      some (get_fallback_articles sampleEnvFallback.fallback_db
        sampleEnvFallback.now 2) :=
  feed_fallback_on_empty.1 sampleEnvFallback "u" 2 (3/10) rfl

/-- Unfolding equation of the MMR loop at zero fuel. -/
lemma mmr_loop_fuel_zero (lam : ℚ) (lim : ℕ) (sel rem : List Scored) :
    mmr_loop lam lim 0 sel rem =
      if sel.length < lim ∧ rem ≠ [] then none else some sel := rfl

/-- Unfolding equation of the MMR loop at positive fuel. -/
lemma mmr_loop_fuel_succ (lam : ℚ) (lim fuel : ℕ) (sel rem : List Scored) :
    mmr_loop lam lim (fuel + 1) sel rem =
      if sel.length < lim ∧ rem ≠ [] then
        match pick_best lam sel rem with
        | none => none
        | some b => mmr_loop lam lim fuel (sel ++ [b]) (rem.erase b)
      else some sel := rfl

/-- With a zero diversity factor the MMR objective is the raw score. -/
lemma mmr_score_zero (sel : List Scored) (a : Scored) :
    mmr_score 0 sel a = a.recommendation_score := by
  unfold mmr_score
  ring

/-- An article returned by the argmax scan comes from the scanned list or
is the incumbent. -/
lemma pick_fold_mem (lam : ℚ) (sel : List Scored) :
    ∀ (l : List Scored) (acc : Option Scored × ℚ) (b : Scored),
      (l.foldl (pick_step lam sel) acc).1 = some b →
      acc.1 = some b ∨ b ∈ l
  | [], _, _, h => Or.inl h
  | a :: t, acc, b, h => by
    rcases pick_fold_mem lam sel t (pick_step lam sel acc a) b h with h1 | h1
    · by_cases hc : acc.2 < mmr_score lam sel a
      · simp only [pick_step, if_pos hc] at h1
        obtain rfl : a = b := by simpa using h1
        exact Or.inr (List.mem_cons_self a t)
      · simp only [pick_step, if_neg hc] at h1
        exact Or.inl h1
    · exact Or.inr (List.mem_cons_of_mem a h1)

/-- If no scanned article strictly beats the incumbent bound, the argmax
scan leaves the accumulator unchanged. -/
lemma pick_fold_const (lam : ℚ) (sel : List Scored) :
    ∀ (l : List Scored) (acc : Option Scored × ℚ),
      (∀ x ∈ l, mmr_score lam sel x ≤ acc.2) →
      l.foldl (pick_step lam sel) acc = acc
  | [], _, _ => rfl
  | a :: t, acc, h => by
    have ha : ¬ acc.2 < mmr_score lam sel a :=
      not_lt.mpr (h a (List.mem_cons_self a t))
    have hstep : pick_step lam sel acc a = acc := by
      simp [pick_step, ha]
    rw [List.foldl_cons, hstep]
    exact pick_fold_const lam sel t acc fun x hx => h x (List.mem_cons_of_mem a hx)

/-- On a list whose head weakly dominates the tail in MMR score and beats
the initial -1 bound, the argmax scan returns the head: a strict
improvement test keeps the first maximum. -/
lemma pick_best_head (lam : ℚ) (sel : List Scored) (b : Scored) (t : List Scored)
    (hb : -1 < mmr_score lam sel b)
    (ht : ∀ x ∈ t, mmr_score lam sel x ≤ mmr_score lam sel b) :
    pick_best lam sel (b :: t) = some b := by
  unfold pick_best
  rw [List.foldl_cons]
  have hstep : pick_step lam sel (none, -1) b = (some b, mmr_score lam sel b) := by
    simp [pick_step, hb]
  rw [hstep, pick_fold_const lam sel t (some b, mmr_score lam sel b) ht]

/-- The argmax scan never drops an incumbent. -/
lemma pick_fold_some (lam : ℚ) (sel : List Scored) :
    ∀ (l : List Scored) (acc : Option Scored × ℚ),
      acc.1.isSome = true → ((l.foldl (pick_step lam sel) acc).1).isSome = true
  | [], _, h => h
  | a :: t, acc, h => by
    rw [List.foldl_cons]
    apply pick_fold_some lam sel t
    by_cases hc : acc.2 < mmr_score lam sel a
    · simp [pick_step, hc]
    · simpa [pick_step, hc] using h

/-- On a nonempty list whose head beats the initial -1 bound, the scan
returns some article. -/
lemma pick_best_isSome (lam : ℚ) (sel : List Scored) (a : Scored)
    (t : List Scored) (ha : -1 < mmr_score lam sel a) :
    (pick_best lam sel (a :: t)).isSome = true := by
  unfold pick_best
  rw [List.foldl_cons]
  apply pick_fold_some
  simp [pick_step, ha]

/-- Topic-Jaccard similarity lies in the unit interval. -/
lemma similarity_bounds (a b : Scored) :
    0 ≤ calculate_article_similarity a b ∧
    calculate_article_similarity a b ≤ 1 := by
  simp only [calculate_article_similarity]
  split_ifs with h1 h2
  · norm_num
  · norm_num
  · have hub : (0:ℚ) <
        ((a.article.topics.toFinset ∪ b.article.topics.toFinset).card : ℚ) := by
      have hne : (a.article.topics.toFinset ∪ b.article.topics.toFinset).Nonempty :=
        Finset.nonempty_iff_ne_empty.mpr h2
      exact_mod_cast Finset.card_pos.mpr hne
    constructor
    · apply div_nonneg _ (le_of_lt hub)
      exact_mod_cast Nat.zero_le _
    · rw [div_le_one hub]
      exact_mod_cast Finset.card_le_card
        (Finset.inter_subset_left.trans Finset.subset_union_left)

/-- The diversity penalty (an average of similarities over a nonempty
selection) lies in the unit interval. -/
lemma mmr_penalty_bounds (sel : List Scored) (hsel : sel ≠ []) (a : Scored) :
    0 ≤ mmr_penalty sel a ∧ mmr_penalty sel a ≤ 1 := by
  unfold mmr_penalty
  have hlen : (0:ℚ) < (sel.length : ℚ) := by
    have hpos : 0 < sel.length := List.length_pos.mpr hsel
    exact_mod_cast hpos
  constructor
  · apply div_nonneg _ (le_of_lt hlen)
    apply List.sum_nonneg
    intro x hx
    obtain ⟨s, _, rfl⟩ := List.mem_map.mp hx
    exact (similarity_bounds a s).1
  · rw [div_le_one hlen]
    have hs : (sel.map fun s => calculate_article_similarity a s).sum ≤
        (sel.map fun s => calculate_article_similarity a s).length • (1:ℚ) := by
      apply List.sum_le_card_nsmul
      intro x hx
      obtain ⟨s, _, rfl⟩ := List.mem_map.mp hx
      exact (similarity_bounds a s).2
    simpa using hs

/-- With diversity factor 0 and nonnegative scores, the MMR loop on a
descending-sorted remainder just takes the next articles in order. -/
lemma mmr_loop_zero_sorted (lim : ℕ) :
    ∀ (rem sel : List Scored), List.Sorted score_ge rem →
      (∀ x ∈ rem, 0 ≤ x.recommendation_score) →
      mmr_loop 0 lim rem.length sel rem
        = some (sel ++ rem.take (lim - sel.length))
  | [], sel, _, _ => by
    simp [mmr_loop_fuel_zero]
  | b :: t, sel, hsorted, hscore => by
    rw [List.length_cons]
    by_cases hlt : sel.length < lim
    · have hcond : sel.length < lim ∧ b :: t ≠ [] := ⟨hlt, by simp⟩
      have hpick : pick_best 0 sel (b :: t) = some b := by
        apply pick_best_head
        · rw [mmr_score_zero]
          have h0 := hscore b (List.mem_cons_self b t)
          linarith
        · intro x hx
          rw [mmr_score_zero, mmr_score_zero]
          exact List.rel_of_sorted_cons hsorted x hx
      rw [mmr_loop_fuel_succ, if_pos hcond, hpick]
      show mmr_loop 0 lim t.length (sel ++ [b]) ((b :: t).erase b)
        = some (sel ++ List.take (lim - sel.length) (b :: t))
      rw [List.erase_cons_head]
      rw [mmr_loop_zero_sorted lim t (sel ++ [b]) hsorted.of_cons
        (fun x hx => hscore x (List.mem_cons_of_mem b hx))]
      congr 1
      rw [List.append_assoc]
      congr 1
      have hsub : lim - sel.length = (lim - (sel.length + 1)) + 1 := by omega
      rw [hsub, List.take_succ_cons]
      simp
    · have hcond : ¬ (sel.length < lim ∧ b :: t ≠ []) := fun h => hlt h.1
      rw [mmr_loop_fuel_succ, if_neg hcond]
      have hz : lim - sel.length = 0 := by omega
      rw [hz, List.take_zero, List.append_nil]

/-- With scores in the unit interval and a diversity factor in [0,1), the
MMR loop always finds a next article, terminates, and selects
min(limit - selected, remaining) further articles. -/
lemma mmr_loop_some (lam : ℚ) (lim : ℕ) (h0 : 0 ≤ lam) (h1 : lam < 1) :
    ∀ (fuel : ℕ) (sel rem : List Scored), fuel = rem.length → sel ≠ [] →
      (∀ x ∈ rem, 0 ≤ x.recommendation_score) →
      ∃ out, mmr_loop lam lim fuel sel rem = some out ∧
        out.length = sel.length + min (lim - sel.length) rem.length := by
  intro fuel
  induction fuel with
  | zero =>
    intro sel rem hf _ _
    have hrem : rem = [] := List.length_eq_zero.mp hf.symm
    subst hrem
    rw [mmr_loop_fuel_zero]
    refine ⟨sel, by simp, by simp⟩
  | succ n ih =>
    intro sel rem hf hsel hsc
    cases rem with
    | nil => simp at hf
    | cons a t =>
      have hn : n = t.length := by
        simp only [List.length_cons] at hf
        omega
      by_cases hlt : sel.length < lim
      · have hcond : sel.length < lim ∧ a :: t ≠ [] := ⟨hlt, by simp⟩
        have hmmr : ∀ x ∈ a :: t, -1 < mmr_score lam sel x := by
          intro x hx
          have hpen := mmr_penalty_bounds sel hsel x
          have hsx := hsc x hx
          have hA : 0 ≤ (1 - lam) * x.recommendation_score :=
            mul_nonneg (by linarith) hsx
          have hB : lam * mmr_penalty sel x ≤ lam * 1 :=
            mul_le_mul_of_nonneg_left hpen.2 h0
          unfold mmr_score
          linarith
        obtain ⟨b, hb⟩ := Option.isSome_iff_exists.mp
          (pick_best_isSome lam sel a t (hmmr a (List.mem_cons_self a t)))
        have hbmem : b ∈ a :: t := by
          rcases pick_fold_mem lam sel (a :: t) (none, -1) b hb with h | h
          · simp at h
          · exact h
        have herase : ((a :: t).erase b).length = n := by
          rw [List.length_erase_of_mem hbmem]
          simp [hn]
        obtain ⟨out, hout, hlen⟩ := ih (sel ++ [b]) ((a :: t).erase b)
          herase.symm (by simp)
          (fun x hx => hsc x (List.mem_of_mem_erase hx))
        refine ⟨out, ?_, ?_⟩
        · rw [mmr_loop_fuel_succ, if_pos hcond, hb]
          exact hout
        · have h2 : (sel ++ [b]).length = sel.length + 1 := by simp
          have h4 : (a :: t).length = t.length + 1 := by simp
          rw [hlen]
          rw [herase, h2, h4]
          omega
      · have hcond : ¬ (sel.length < lim ∧ a :: t ≠ []) := fun h => hlt h.1
        rw [mmr_loop_fuel_succ, if_neg hcond]
        exact ⟨sel, rfl, by omega⟩

/-- C4 (amended): with diversity_factor 0 and a positive limit, diversity
re-ranking returns exactly the descending-score stable sort truncated to
the limit; the MMR penalty term vanishes and the strict-improvement
argmax keeps the first (deterministic) maximum. -/
theorem rerank_zero_diversity (articles : List Scored) (lim : ℕ)
    (hscore : ∀ x ∈ articles,
      0 ≤ x.recommendation_score ∧ x.recommendation_score ≤ 1)
    (hlim : 1 ≤ lim) :
    apply_diversity_reranking articles 0 lim =
      some ((List.insertionSort score_ge articles).take lim) := by
  unfold apply_diversity_reranking
  cases hs : List.insertionSort score_ge articles with
  | nil => simp
  | cons first rest =>
    have hsorted : List.Sorted score_ge (first :: rest) := by
      rw [← hs]
      exact List.sorted_insertionSort score_ge articles
    have hmem : ∀ x ∈ first :: rest, 0 ≤ x.recommendation_score := by
      intro x hx
      have hx2 : x ∈ List.insertionSort score_ge articles := by
        rw [hs]; exact hx
      exact (hscore x ((List.mem_insertionSort score_ge).mp hx2)).1
    show mmr_loop 0 lim rest.length [first] rest
      = some (List.take lim (first :: rest))
    rw [mmr_loop_zero_sorted lim rest [first] hsorted.of_cons
      (fun x hx => hmem x (List.mem_cons_of_mem first hx))]
    congr 1
    obtain ⟨m, rfl⟩ : ∃ m, lim = m + 1 := ⟨lim - 1, by omega⟩
    simp [List.take_succ_cons]

/-- Witness for C4 at a concrete two-element input and limit 1. -/
theorem rerank_zero_diversity_witness :
    apply_diversity_reranking [wScoredA, wScoredB] 0 1 =
      some ((List.insertionSort score_ge [wScoredA, wScoredB]).take 1) :=
  rerank_zero_diversity [wScoredA, wScoredB] 1 (by decide) (by decide)

/-- Counterexample to C4 as stated: with limit 0 the code still returns
the top-scored candidate, while sort-then-take returns the empty list. -/
theorem rerank_zero_diversity_cex :
    apply_diversity_reranking [cexScored4] 0 0 ≠
      some ((List.insertionSort score_ge [cexScored4]).take 0) := by
  decide

/-- C9 (amended): with scores in the unit interval, a diversity factor in
[0,1) and a positive limit, the MMR selection loop terminates with a
result and the returned list has length exactly min(limit, number of
candidates). -/
theorem rerank_terminates_min_length (articles : List Scored) (lam : ℚ)
    (lim : ℕ)
    (hscore : ∀ x ∈ articles,
      0 ≤ x.recommendation_score ∧ x.recommendation_score ≤ 1)
    (h0 : 0 ≤ lam) (h1 : lam < 1) (hlim : 1 ≤ lim) :
    ∃ out, apply_diversity_reranking articles lam lim = some out ∧
      out.length = min lim articles.length := by
  unfold apply_diversity_reranking
  cases hs : List.insertionSort score_ge articles with
  | nil =>
    have hlen : articles.length = 0 := by
      have hl := List.length_insertionSort score_ge articles
      rw [hs] at hl
      simpa using hl.symm
    exact ⟨[], rfl, by simp [hlen]⟩
  | cons first rest =>
    have hmem : ∀ x ∈ first :: rest, 0 ≤ x.recommendation_score := by
      intro x hx
      have hx2 : x ∈ List.insertionSort score_ge articles := by
        rw [hs]; exact hx
      exact (hscore x ((List.mem_insertionSort score_ge).mp hx2)).1
    obtain ⟨out, hout, hlen⟩ := mmr_loop_some lam lim h0 h1 rest.length
      [first] rest rfl (by simp)
      (fun x hx => hmem x (List.mem_cons_of_mem first hx))
    refine ⟨out, hout, ?_⟩
    have hlen2 : articles.length = rest.length + 1 := by
      have hl := List.length_insertionSort score_ge articles
      rw [hs] at hl
      simpa using hl.symm
    rw [hlen, hlen2]
    simp only [List.length_singleton]
    omega

/-- Witness for C9 at a concrete input with the default diversity factor
0.3 and limit 2. -/
theorem rerank_terminates_min_length_witness :
    ∃ out, apply_diversity_reranking [wScored9] (3/10) 2 = some out ∧
      out.length = min 2 ([wScored9] : List Scored).length :=
  rerank_terminates_min_length [wScored9] (3/10) 2 (by decide) (by norm_num)
    (by norm_num) (by norm_num)

/-- Counterexample to C9 as stated: at limit 0 with one candidate of
score 1 and diversity factor 0 (both within the claim's hypotheses), the
loop still returns one selected candidate, so the result length is 1
while min(limit, number of candidates) = 0. -/
theorem rerank_min_length_cex :
    apply_diversity_reranking [cexScored9] 0 0 = some [cexScored9] ∧
    ([cexScored9] : List Scored).length ≠
      min 0 ([cexScored9] : List Scored).length := by
  constructor
  · decide
  · decide

/-- Anything the MMR loop returns is a permutation of a sublist of the
selected-so-far plus the remainder: articles are only moved, never
duplicated. -/
lemma mmr_loop_subperm (lam : ℚ) (lim : ℕ) :
    ∀ (fuel : ℕ) (sel rem out : List Scored),
      mmr_loop lam lim fuel sel rem = some out →
      List.Subperm out (sel ++ rem) := by
  intro fuel
  induction fuel with
  | zero =>
    intro sel rem out h
    rw [mmr_loop_fuel_zero] at h
    split_ifs at h
    obtain rfl : sel = out := Option.some.inj h
    exact (List.sublist_append_left sel rem).subperm
  | succ n ih =>
    intro sel rem out h
    rw [mmr_loop_fuel_succ] at h
    split_ifs at h
    · cases hpick : pick_best lam sel rem with
      | none => rw [hpick] at h; simp at h
      | some b =>
        rw [hpick] at h
        have hbmem : b ∈ rem := by
          rcases pick_fold_mem lam sel rem (none, -1) b hpick with h2 | h2
          · simp at h2
          · exact h2
        have hsub := ih (sel ++ [b]) (rem.erase b) out h
        have hperm : List.Perm ((sel ++ [b]) ++ rem.erase b) (sel ++ rem) := by
          rw [List.append_assoc]
          exact List.Perm.append_left sel (List.perm_cons_erase hbmem).symm
        exact hsub.trans hperm.subperm
    · obtain rfl : sel = out := Option.some.inj h
      exact (List.sublist_append_left sel rem).subperm

/-- Diversity re-ranking never duplicates an input article: its output is
a permutation of a sublist of its input. -/
lemma rerank_subperm (articles : List Scored) (lam : ℚ) (lim : ℕ)
    (out : List Scored)
    (h : apply_diversity_reranking articles lam lim = some out) :
    List.Subperm out articles := by
  unfold apply_diversity_reranking at h
  cases hs : List.insertionSort score_ge articles with
  | nil =>
    rw [hs] at h
    obtain rfl : ([] : List Scored) = out := Option.some.inj h
    exact (List.nil_sublist articles).subperm
  | cons first rest =>
    rw [hs] at h
    have hsub := mmr_loop_subperm lam lim rest.length [first] rest out h
    have hperm : List.Perm (first :: rest) articles := by
      rw [← hs]
      exact List.perm_insertionSort score_ge articles
    exact hsub.trans hperm.subperm

/-- Distinctness of article ids transfers along a sub-permutation. -/
lemma subperm_ids_nodup {l1 l2 : List Scored} (h : List.Subperm l1 l2)
    (h2 : (l2.map fun s => s.article.id).Nodup) :
    (l1.map fun s => s.article.id).Nodup := by
  obtain ⟨m, hperm, hsub⟩ := h
  have hm : (m.map fun s => s.article.id).Nodup :=
    h2.sublist (hsub.map fun s => s.article.id)
  exact (hperm.map fun s => s.article.id).nodup_iff.mp hm

/-- Candidate construction preserves the row's article id. -/
lemma map_id_rowToCandidate (l : List CandRow) :
    ((l.map rowToCandidate).map fun c => c.id) = l.map CandRow.id := by
  induction l with
  | nil => rfl
  | cons a t ih => simp only [List.map_cons, ih, rowToCandidate]

/-- The candidate retriever keeps article ids distinct when the backing
article store has distinct ids: the query filters, reorders and truncates
the store without duplicating rows. -/
lemma candidate_ids_nodup (db : DB) (now : ℚ) (uid : String) (lim : ℕ)
    (h : (db.articles.map CandRow.id).Nodup) :
    ((get_candidate_articles (some db) now uid lim).map fun c => c.id).Nodup := by
  show (((candidate_query db now uid lim).map rowToCandidate).map
    fun c => c.id).Nodup
  rw [map_id_rowToCandidate]
  have hfil : ((db.articles.filter (candidate_filter db now uid)).map
      CandRow.id).Nodup :=
    h.sublist ((List.filter_sublist db.articles).map CandRow.id)
  have hsort : ((List.insertionSort pub_order
      (db.articles.filter (candidate_filter db now uid))).map
      CandRow.id).Nodup := by
    have hperm := (List.perm_insertionSort pub_order
      (db.articles.filter (candidate_filter db now uid))).map CandRow.id
    exact hperm.nodup_iff.mpr hfil
  exact hsort.sublist ((List.take_sublist lim _).map CandRow.id)

/-- Scoring attaches a score without changing the article id. -/
lemma map_id_scored (f : Candidate → ℚ) (candidates : List Candidate) :
    ((candidates.map fun a =>
        ({ article := a, recommendation_score := f a } : Scored)).map
      fun s => s.article.id) = candidates.map fun c => c.id := by
  induction candidates with
  | nil => rfl
  | cons a t ih => simp only [List.map_cons, ih]

/-- Fallback construction preserves the row's article id. -/
lemma map_id_fallback (l : List CandRow) :
    ((l.map row_to_fallback).map fun s => s.article.id) = l.map CandRow.id := by
  induction l with
  | nil => rfl
  | cons a t ih => simp only [List.map_cons, ih, row_to_fallback]

/-- The fallback supplier keeps article ids distinct when the backing
article store has distinct ids. -/
lemma fallback_ids_nodup (db : DB) (now : ℚ) (lim : ℕ)
    (h : (db.articles.map CandRow.id).Nodup) :
    ((get_fallback_articles (some db) now lim).map
      fun s => s.article.id).Nodup := by
  show (((fallback_query db now lim).map row_to_fallback).map
    fun s => s.article.id).Nodup
  rw [map_id_fallback]
  have hfil : ((db.articles.filter (fallback_filter now)).map
      CandRow.id).Nodup :=
    h.sublist ((List.filter_sublist db.articles).map CandRow.id)
  have hsort : ((List.insertionSort fallback_order
      (db.articles.filter (fallback_filter now))).map CandRow.id).Nodup := by
    have hperm := (List.perm_insertionSort fallback_order
      (db.articles.filter (fallback_filter now))).map CandRow.id
    exact hperm.nodup_iff.mpr hfil
  exact hsort.sublist ((List.take_sublist lim _).map CandRow.id)

/-- C2: whenever the backing article stores have distinct article ids (the
primary keys of articles and article_nlp), any list returned by
get_personalized_feed contains no two entries with the same article id,
on both the personalized path and the fallback path. -/
theorem feed_no_duplicate_ids (env : Env) (uid : String) (lim : ℕ) (lam : ℚ)
    (hc : ∀ db, env.candidate_db = some db →
      (db.articles.map CandRow.id).Nodup)
    (hf : ∀ db, env.fallback_db = some db →
      (db.articles.map CandRow.id).Nodup)
    (out : List Scored)
    (hout : get_personalized_feed env uid lim lam = some out) :
    (out.map fun s => s.article.id).Nodup := by
  simp only [get_personalized_feed] at hout
  by_cases hempty :
      get_candidate_articles env.candidate_db env.now uid (lim * 3) = []
  · rw [if_pos hempty] at hout
    obtain rfl : get_fallback_articles env.fallback_db env.now lim = out :=
      Option.some.inj hout
    cases hdb : env.fallback_db with
    | none => simp [get_fallback_articles]
    | some db =>
      exact fallback_ids_nodup db env.now lim (hf db hdb)
  · rw [if_neg hempty] at hout
    cases hdb : env.candidate_db with
    | none =>
      exact absurd (by rw [hdb]; rfl) hempty
    | some db =>
      have hcnodup : ((get_candidate_articles env.candidate_db env.now uid
          (lim * 3)).map fun c => c.id).Nodup := by
        rw [hdb]
        exact candidate_ids_nodup db env.now uid (lim * 3) (hc db hdb)
      have hsnodup : (((get_candidate_articles env.candidate_db env.now uid
          (lim * 3)).map fun a =>
            ({ article := a, recommendation_score :=
              calculate_hybrid_score env
                (get_user_profile uid env.profile_events) a } : Scored)).map
          fun s => s.article.id).Nodup := by
        rw [map_id_scored]
        exact hcnodup
      exact subperm_ids_nodup (rerank_subperm _ lam lim out hout) hsnodup

/-- Witness for C2: on a concrete environment the feed result carries no
duplicate article ids. -/
theorem feed_no_duplicate_ids_witness :
    ((get_fallback_articles wEnvC2.fallback_db wEnvC2.now 1).map
      fun s => s.article.id).Nodup :=
  feed_no_duplicate_ids wEnvC2 "u" 1 (3/10)
    (fun db h => by cases h)
    (fun db h => by
      injection h with h2
      rw [← h2]
      decide)
    (get_fallback_articles wEnvC2.fallback_db wEnvC2.now 1) rfl

/-- C3 (amended): the candidate retriever performs one recency-ordered
retrieval (get_personalized_feed passes limit * 3, so at most 3N rows
come back, not 2N, and there is no vector retrieval or merge); if the
article store has distinct ids the candidates are deduplicated, and every
article with a read or bookmark event by the user is excluded. -/
theorem candidate_retrieval_properties (db : DB) (now : ℚ) (uid : String)
    (n : ℕ) (h : (db.articles.map CandRow.id).Nodup) :
    (get_candidate_articles (some db) now uid (n * 3)).length ≤ 3 * n ∧
    ((get_candidate_articles (some db) now uid (n * 3)).map
      fun c => c.id).Nodup ∧
    (∀ c ∈ get_candidate_articles (some db) now uid (n * 3),
      ∀ e ∈ db.events, e.user_id = uid →
        (e.event_type = "read" ∨ e.event_type = "bookmark") →
        c.id ≠ e.article_id) := by
  refine ⟨?_, candidate_ids_nodup db now uid (n * 3) h, ?_⟩
  · show ((candidate_query db now uid (n * 3)).map rowToCandidate).length ≤ 3 * n
    rw [List.length_map]
    unfold candidate_query
    rw [List.length_take]
    have := min_le_left (n * 3)
      (List.insertionSort pub_order
        (db.articles.filter (candidate_filter db now uid))).length
    omega
  · intro c hc e he hu ht
    obtain ⟨r, hr, rfl⟩ := List.mem_map.mp hc
    have hr2 : r ∈ List.insertionSort pub_order
        (db.articles.filter (candidate_filter db now uid)) :=
      List.mem_of_mem_take hr
    have hr3 : r ∈ db.articles.filter (candidate_filter db now uid) :=
      (List.mem_insertionSort pub_order).mp hr2
    have hr4 := (List.mem_filter.mp hr3).2
    unfold candidate_filter at hr4
    rw [Bool.and_eq_true] at hr4
    have hcons : consumedB db uid r.id = false := by
      have hx := hr4.2
      rwa [Bool.not_eq_true'] at hx
    intro heq
    have htrue : consumedB db uid r.id = true := by
      unfold consumedB
      rw [List.any_eq_true]
      refine ⟨e, he, ?_⟩
      simp only [Bool.and_eq_true, Bool.or_eq_true, beq_iff_eq]
      exact ⟨⟨hu, ht⟩, heq.symm⟩
    rw [hcons] at htrue
    exact Bool.false_ne_true htrue

/-- Witness for C3 at the concrete database with N = 1. -/
theorem candidate_retrieval_properties_witness :
    (get_candidate_articles (some wDbC3) 0 "u" (1 * 3)).length ≤ 3 * 1 ∧
    ((get_candidate_articles (some wDbC3) 0 "u" (1 * 3)).map
      fun c => c.id).Nodup ∧
    (∀ c ∈ get_candidate_articles (some wDbC3) 0 "u" (1 * 3),
      ∀ e ∈ wDbC3.events, e.user_id = "u" →
        (e.event_type = "read" ∨ e.event_type = "bookmark") →
        c.id ≠ e.article_id) :=
  candidate_retrieval_properties wDbC3 0 "u" 1 (by decide)

/-- Counterexample to C3 as stated: with N = 1 the retriever is invoked
with limit N * 3 and returns three candidates, exceeding the claimed 2N
bound (and the code performs no vector retrieval to merge at all). -/
theorem candidate_count_cex :
    ¬ ((get_candidate_articles (some cexDbC3) 0 "u" (1 * 3)).length ≤ 2 * 1) := by
  have hfA : candidate_filter cexDbC3 0 "u" cexRowA = true := by
    simp only [candidate_filter, consumedB, cexDbC3, cexRowA, List.any_nil,
      Bool.not_false, Bool.and_true, decide_eq_true_eq]
    norm_num
  have hfB : candidate_filter cexDbC3 0 "u" cexRowB = true := by
    simp only [candidate_filter, consumedB, cexDbC3, cexRowB, List.any_nil,
      Bool.not_false, Bool.and_true, decide_eq_true_eq]
    norm_num
  have hfC : candidate_filter cexDbC3 0 "u" cexRowC = true := by
    simp only [candidate_filter, consumedB, cexDbC3, cexRowC, List.any_nil,
      Bool.not_false, Bool.and_true, decide_eq_true_eq]
    norm_num
  have hflt : (cexDbC3.articles.filter (candidate_filter cexDbC3 0 "u")).length
      = 3 := by
    show (List.filter (candidate_filter cexDbC3 0 "u")
      [cexRowA, cexRowB, cexRowC]).length = 3
    simp [List.filter, hfA, hfB, hfC]
  have h1 : (get_candidate_articles (some cexDbC3) 0 "u" (1 * 3)).length
      = min (1 * 3)
        (cexDbC3.articles.filter (candidate_filter cexDbC3 0 "u")).length := by
    show ((candidate_query cexDbC3 0 "u" (1 * 3)).map rowToCandidate).length = _
    rw [List.length_map]
    unfold candidate_query
    rw [List.length_take, List.length_insertionSort]
  rw [h1, hflt]
  decide
